import Mathlib

/-!
Verification of the DataDuck duck-race dashboard (src/app.py).

The file embeds the computational core of the program:

* the winner-statistics aggregation (`calculate_statistics`, src/app.py
  lines 232-309): cleaning, date-sorting, win counting, champion lookup,
  cumulative series;
* the Hall-of-Fame tier filters (src/app.py lines 766-827);
* the client-side rate governor (`check_api_rate_limit`,
  `record_api_call`, src/app.py lines 40-80) and the guarded write path
  (`save_winner_to_sheets`, src/app.py lines 197-230).

Modelling conventions:

* Dates are modelled as natural numbers after parsing
  (`pd.to_datetime` succeeds or raises before any of the logic embedded
  here runs); only their linear order matters to the program.
* Call timestamps (Python `time.time()` floats) are modelled as
  integers; the governor only compares differences against the integer
  window sizes 60 and 3600.
* The float thresholds `MAX * 0.8` in the source evaluate exactly to
  12.0 (from 15) and 160.0 (from 200) in IEEE double arithmetic, so the
  warning comparisons are embedded as the exact rational comparison
  4 * MAX ≤ 5 * count.
* Python `str.strip()` is embedded as `strip`, removing leading and
  trailing whitespace characters.
* The Streamlit session state mutated by the Python functions is made
  explicit: `check_api_rate_limit` returns the pruned timestamp list
  together with the status record, and `save_winner_to_sheets` returns
  the success flag, the resulting timestamp list and the resulting
  sheet contents.
-/

namespace DataDuck

/-- A win record as stored in the sheet: a winner name and a race date
(post-parsing, see module docstring). -/
structure WinRecord where
  winner : String
  date : Nat
deriving DecidableEq, Repr

/-- One row of the cumulative-wins table built at src/app.py lines
279-298: the date and winner of the record together with the running
win count of that winner after this record. -/
structure CumEntry where
  date : Nat
  winner : String
  cumulative_wins : Nat
deriving DecidableEq, Repr

/-- Python `str.strip()`: remove leading and trailing whitespace
(src/app.py line 243 applies it to every winner string). -/
def strip (s : String) : String :=
  String.mk (((s.data.dropWhile Char.isWhitespace).reverse.dropWhile
    Char.isWhitespace).reverse)

/-- The row filter of src/app.py lines 247-252: keep a (already
stripped) winner string iff it is none of the empty string, the string
rendering of a pandas missing value after astype(str) ("nan"), or the
string rendering of the Python null value ("None").  The `notna()`
conjunct of the source is always true after `astype(str)`. -/
def isValidWinner (w : String) : Bool :=
  w != "" && w != "nan" && w != "None"

/-- The cleaning step of src/app.py lines 243-252: strip every winner,
then drop the invalid rows. -/
def cleanRecords (data : List WinRecord) : List WinRecord :=
  (data.map (fun r => { r with winner := strip r.winner })).filter
    (fun r => isValidWinner r.winner)

/-- Order on records used by the ascending date sort. -/
def dateLE (a b : WinRecord) : Prop := a.date ≤ b.date

instance : DecidableRel dateLE := fun a b => Nat.decLe a.date b.date

instance : IsTotal WinRecord dateLE := ⟨fun a b => Nat.le_total a.date b.date⟩

instance : IsTrans WinRecord dateLE := ⟨fun _ _ _ => Nat.le_trans⟩

/-- Order on records used by the descending date sort. -/
def dateGE (a b : WinRecord) : Prop := b.date ≤ a.date

instance : DecidableRel dateGE := fun a b => Nat.decLe b.date a.date

/-- The ascending sort of the frame by its date column (src/app.py
line 258), embedded as a comparison sort. -/
def sortByDate (rs : List WinRecord) : List WinRecord :=
  List.insertionSort dateLE rs

/-- The winner column of a record list. -/
def winners (rs : List WinRecord) : List String := rs.map (fun r => r.winner)

/-- Number of wins of `w` in the record list: the value
`value_counts()` associates to `w`. -/
def winCount (rs : List WinRecord) (w : String) : Nat :=
  (winners rs).count w

/-- Descending-count order on the rows of the frequency table. -/
def countGE (p q : String × Nat) : Prop := q.2 ≤ p.2

instance : DecidableRel countGE := fun p q => Nat.decLe q.2 p.2

instance : IsTotal (String × Nat) countGE := ⟨fun p q => Nat.le_total q.2 p.2⟩

instance : IsTrans (String × Nat) countGE :=
  ⟨fun _ _ _ h h' => Nat.le_trans h' h⟩

/-- The frequency table of the winner column, `value_counts` at
src/app.py line 265: one row per distinct winner with its count,
ordered descending by count. -/
def win_counts_list (rs : List WinRecord) : List (String × Nat) :=
  List.insertionSort countGE
    ((winners rs).dedup.map (fun w => (w, (winners rs).count w)))

/-- The maximum of the date column; `idxmax` at src/app.py line 268
locates the first row attaining it. -/
def maxDate (rs : List WinRecord) : Nat :=
  (rs.map (fun r => r.date)).foldr max 0

/-- The current champion, src/app.py lines 268-269: the winner of
the first row of the date-sorted frame, in sorted order, whose date
attains the maximum (the row `idxmax` locates). -/
def current_champion (rs : List WinRecord) : Option String :=
  ((sortByDate rs).find? (fun r => r.date == maxDate rs)).map
    (fun r => r.winner)

/-- The champion count lookup `win_counts.get(current_champion, 0)`
at src/app.py line 272. -/
def champion_total_wins (rs : List WinRecord) : Nat :=
  match current_champion rs with
  | some c => ((win_counts_list rs).lookup c).getD 0
  | none => 0

/-- The ten most recent records: descending date sort followed by
`head(10)`, src/app.py lines 275-276. -/
def recent_winners (rs : List WinRecord) : List WinRecord :=
  (List.insertionSort dateGE rs).take 10

/-- The loop of src/app.py lines 282-296: walk the (sorted) records
once, carrying the per-winner tally `win_tracking`, and emit one row
per record with the incremented running count of that winner. -/
def cumulAux : List WinRecord → (String → Nat) → List CumEntry
  | [], _ => []
  | r :: rs, tally =>
    let c := tally r.winner + 1
    ⟨r.date, r.winner, c⟩ ::
      cumulAux rs (fun w => if w = r.winner then c else tally w)

/-- The cumulative table `cumulative_df` of src/app.py lines
279-298: the single pass runs over the ascending-date-sorted records
starting from an all-zero tally. -/
def cumulative_series (rs : List WinRecord) : List CumEntry :=
  cumulAux (sortByDate rs) (fun _ => 0)

/-- The dictionary returned by `calculate_statistics` (src/app.py
lines 300-309). -/
structure StatsBundle where
  total_races : Nat
  unique_winners : Nat
  win_counts : List (String × Nat)
  current_champion : String
  champion_total_wins : Nat
  recent_winners : List WinRecord
  cumulative : List CumEntry
deriving DecidableEq, Repr

/-- Assemble the bundle from the cleaned records, mirroring src/app.py
lines 257-309 (every statistic is computed from the date-sorted
cleaned frame). -/
def mkBundle (df : List WinRecord) : StatsBundle :=
  let dfs := sortByDate df
  { total_races := dfs.length
    unique_winners := (winners dfs).dedup.length
    win_counts := win_counts_list dfs
    current_champion := (current_champion dfs).getD ""
    champion_total_wins := champion_total_wins dfs
    recent_winners := recent_winners dfs
    cumulative := cumulative_series dfs }

/-- The aggregation `calculate_statistics` of src/app.py lines
232-309, with the loaded record list passed explicitly.  Returns `none` when the load produced
no rows (line 236) or when cleaning removed every row (line 254). -/
def calculate_statistics (data : List WinRecord) : Option StatsBundle :=
  if data = [] then none
  else
    let df := cleanRecords data
    if df = [] then none
    else some (mkBundle df)

/-! ### Hall-of-Fame tiers (src/app.py lines 766-827) -/

/-- Winners with counts of at least 8 (src/app.py line 771). -/
def diamond_champions (wc : List (String × Nat)) : List (String × Nat) :=
  wc.filter (fun p => decide (8 ≤ p.2))

/-- Counts in `[6, 8)` (lines 782-784). -/
def platinum_champions (wc : List (String × Nat)) : List (String × Nat) :=
  wc.filter (fun p => decide (6 ≤ p.2) && decide (p.2 < 8))

/-- Counts in `[4, 6)` (lines 795-797). -/
def gold_champions (wc : List (String × Nat)) : List (String × Nat) :=
  wc.filter (fun p => decide (4 ≤ p.2) && decide (p.2 < 6))

/-- Counts in `[2, 4)` (lines 808-810). -/
def silver_champions (wc : List (String × Nat)) : List (String × Nat) :=
  wc.filter (fun p => decide (2 ≤ p.2) && decide (p.2 < 4))

/-- Counts equal to 1 (line 821). -/
def bronze_champions (wc : List (String × Nat)) : List (String × Nat) :=
  wc.filter (fun p => decide (p.2 = 1))

/-- The five named tiers. -/
inductive Tier where
  | diamond | platinum | gold | silver | bronze
deriving DecidableEq, Repr

/-- The tier a total win count belongs to, written from the reading
of the band boundaries in the spec; used to state that the five
source filters partition the winners. -/
def tier_of (n : Nat) : Option Tier :=
  if 8 ≤ n then some Tier.diamond
  else if 6 ≤ n then some Tier.platinum
  else if 4 ≤ n then some Tier.gold
  else if 2 ≤ n then some Tier.silver
  else if n = 1 then some Tier.bronze
  else none

/-! ### Rate governor (src/app.py lines 40-80, 197-230) -/

/-- src/app.py line 40. -/
def MAX_API_CALLS_PER_MINUTE : Nat := 15

/-- src/app.py line 41. -/
def MAX_API_CALLS_PER_HOUR : Nat := 200

/-- The status dictionary returned by `check_api_rate_limit`
(src/app.py lines 68-76). -/
structure RateStatus where
  calls_last_minute : Nat
  calls_last_hour : Nat
  minute_warning : Bool
  hour_warning : Bool
  minute_exceeded : Bool
  hour_exceeded : Bool
  can_make_call : Bool
deriving DecidableEq, Repr

/-- The governor `check_api_rate_limit` of src/app.py lines 43-76.
The function
prunes `st.session_state.api_call_times` in place; here the pruned
list is returned alongside the status.  `count >= MAX * 0.8` is
embedded as the exact comparison `4 * MAX ≤ 5 * count` (see module
docstring). -/
def check_api_rate_limit (api_call_times : List Int) (current_time : Int) :
    List Int × RateStatus :=
  let kept := api_call_times.filter (fun t => decide (current_time - t < 3600))
  let calls_last_minute :=
    (kept.filter (fun t => decide (current_time - t < 60))).length
  let calls_last_hour := kept.length
  let minute_exceeded := decide (MAX_API_CALLS_PER_MINUTE ≤ calls_last_minute)
  let hour_exceeded := decide (MAX_API_CALLS_PER_HOUR ≤ calls_last_hour)
  (kept,
    { calls_last_minute := calls_last_minute
      calls_last_hour := calls_last_hour
      minute_warning :=
        decide (4 * MAX_API_CALLS_PER_MINUTE ≤ 5 * calls_last_minute)
      hour_warning :=
        decide (4 * MAX_API_CALLS_PER_HOUR ≤ 5 * calls_last_hour)
      minute_exceeded := minute_exceeded
      hour_exceeded := hour_exceeded
      can_make_call := !(minute_exceeded || hour_exceeded) })

/-- Call recording `record_api_call`, src/app.py lines 78-80: append
the current time to the call-timestamp list. -/
def record_api_call (api_call_times : List Int) (t : Int) : List Int :=
  api_call_times ++ [t]

/-- The write path `save_winner_to_sheets` of src/app.py lines
197-230, with the session timestamp list and the sheet contents
explicit and the worksheet assumed reachable (the claims under study
concern the rate-limit refusal path).  Returns (success, timestamp
list, sheet).  The two refusal branches mirror the `if minute / elif
hour` structure of the source inside `if not can_make_call`. -/
def save_winner_to_sheets (api_call_times : List Int) (current_time : Int)
    (sheet : List WinRecord) (winner_name : String) (race_date : Nat) :
    Bool × List Int × List WinRecord :=
  let res := check_api_rate_limit api_call_times current_time
  if res.2.can_make_call = false && res.2.minute_exceeded then
    (false, res.1, sheet)
  else if res.2.can_make_call = false && res.2.hour_exceeded then
    (false, res.1, sheet)
  else
    (true, record_api_call res.1 current_time,
      sheet ++ [⟨winner_name, race_date⟩])

/-! ### Helper lemmas -/

/-- Recording calls one after another appends them in order. -/
theorem foldl_record_api_call (ts : List Int) (s : List Int) :
    ts.foldl record_api_call s = s ++ ts := by
  induction ts generalizing s with
  | nil => simp
  | cons t ts ih =>
    simp only [List.foldl_cons, record_api_call, ih, List.append_assoc,
      List.singleton_append]

/-- The status fields of the governor, unfolded. -/
theorem check_api_rate_limit_def (times : List Int) (now : Int) :
    check_api_rate_limit times now =
      (times.filter (fun t => decide (now - t < 3600)),
        { calls_last_minute :=
            ((times.filter (fun t => decide (now - t < 3600))).filter
              (fun t => decide (now - t < 60))).length
          calls_last_hour :=
            (times.filter (fun t => decide (now - t < 3600))).length
          minute_warning :=
            decide (4 * MAX_API_CALLS_PER_MINUTE ≤
              5 * ((times.filter (fun t => decide (now - t < 3600))).filter
                (fun t => decide (now - t < 60))).length)
          hour_warning :=
            decide (4 * MAX_API_CALLS_PER_HOUR ≤
              5 * (times.filter (fun t => decide (now - t < 3600))).length)
          minute_exceeded :=
            decide (MAX_API_CALLS_PER_MINUTE ≤
              ((times.filter (fun t => decide (now - t < 3600))).filter
                (fun t => decide (now - t < 60))).length)
          hour_exceeded :=
            decide (MAX_API_CALLS_PER_HOUR ≤
              (times.filter (fun t => decide (now - t < 3600))).length)
          can_make_call :=
            !(decide (MAX_API_CALLS_PER_MINUTE ≤
                ((times.filter (fun t => decide (now - t < 3600))).filter
                  (fun t => decide (now - t < 60))).length) ||
              decide (MAX_API_CALLS_PER_HOUR ≤
                (times.filter (fun t => decide (now - t < 3600))).length)) }) :=
  rfl

/-- Filtering the hour window first does not change the minute count. -/
theorem minute_filter_eq (times : List Int) (now : Int) :
    (times.filter (fun t => decide (now - t < 3600))).filter
        (fun t => decide (now - t < 60))
      = times.filter (fun t => decide (now - t < 60)) := by
  rw [List.filter_filter]
  refine List.filter_congr ?_
  intro t _
  by_cases h : now - t < 60
  · have h' : now - t < 3600 := by omega
    simp [h, h']
  · simp [h]

/-! ### Claim theorems: rate governor -/

/-- C6: for every call-timestamp list and current time, the status
reported by `check_api_rate_limit` counts the calls of the last 60
seconds and of the last hour, warns exactly when a count reaches 80%
of its ceiling (12 of 15 per minute, 160 of 200 per hour), reports
exceeded exactly when a count reaches its ceiling, and allows the call
exactly when neither ceiling is exceeded. -/
theorem check_api_rate_limit_correct (times : List Int) (now : Int) :
    ((check_api_rate_limit times now).2.calls_last_minute
        = (times.filter (fun t => decide (now - t < 60))).length)
    ∧ ((check_api_rate_limit times now).2.calls_last_hour
        = (times.filter (fun t => decide (now - t < 3600))).length)
    ∧ ((check_api_rate_limit times now).2.minute_warning = true ↔
        12 ≤ (check_api_rate_limit times now).2.calls_last_minute)
    ∧ ((check_api_rate_limit times now).2.hour_warning = true ↔
        160 ≤ (check_api_rate_limit times now).2.calls_last_hour)
    ∧ ((check_api_rate_limit times now).2.minute_exceeded = true ↔
        MAX_API_CALLS_PER_MINUTE ≤
          (check_api_rate_limit times now).2.calls_last_minute)
    ∧ ((check_api_rate_limit times now).2.hour_exceeded = true ↔
        MAX_API_CALLS_PER_HOUR ≤
          (check_api_rate_limit times now).2.calls_last_hour)
    ∧ ((check_api_rate_limit times now).2.can_make_call =
        !((check_api_rate_limit times now).2.minute_exceeded ||
          (check_api_rate_limit times now).2.hour_exceeded)) := by
  rw [check_api_rate_limit_def]
  refine ⟨?_, rfl, ?_, ?_, ?_, ?_, rfl⟩
  · rw [minute_filter_eq]
  · simp [MAX_API_CALLS_PER_MINUTE]
    omega
  · simp [MAX_API_CALLS_PER_HOUR]
    omega
  · simp [MAX_API_CALLS_PER_MINUTE]
  · simp [MAX_API_CALLS_PER_HOUR]

/-- C7: recording exactly the per-minute ceiling of calls within one
minute makes the next status check report the minute ceiling exceeded
and refuse further calls; a later check, once at least 60 seconds have
passed since every recorded call with nothing new recorded, no longer
reports the minute ceiling exceeded. -/
theorem rate_limit_window_scenario (ts : List Int) (now later : Int)
    (hlen : ts.length = MAX_API_CALLS_PER_MINUTE)
    (hrecent : ∀ t ∈ ts, 0 ≤ now - t ∧ now - t < 60)
    (hlater : ∀ t ∈ ts, 60 ≤ later - t) :
    ((check_api_rate_limit (ts.foldl record_api_call []) now).2.minute_exceeded
        = true)
    ∧ ((check_api_rate_limit (ts.foldl record_api_call []) now).2.can_make_call
        = false)
    ∧ ((check_api_rate_limit
          (check_api_rate_limit (ts.foldl record_api_call []) now).1
          later).2.minute_exceeded = false) := by
  have hs : ts.foldl record_api_call [] = ts := by
    rw [foldl_record_api_call, List.nil_append]
  have hhour : ts.filter (fun t => decide (now - t < 3600)) = ts := by
    refine List.filter_eq_self.mpr ?_
    intro t ht
    have := hrecent t ht
    simp only [decide_eq_true_eq]
    omega
  have hmin : ts.filter (fun t => decide (now - t < 60)) = ts := by
    refine List.filter_eq_self.mpr ?_
    intro t ht
    have := hrecent t ht
    simp only [decide_eq_true_eq]
    omega
  have hdead :
      (ts.filter (fun t => decide (later - t < 3600))).filter
          (fun t => decide (later - t < 60)) = [] := by
    refine List.filter_eq_nil_iff.mpr ?_
    intro t ht
    have htts : t ∈ ts := (List.mem_filter.mp ht).1
    have := hlater t htts
    simp only [decide_eq_true_eq]
    omega
  rw [check_api_rate_limit_def, check_api_rate_limit_def]
  simp only [hs, minute_filter_eq, hhour, hmin, hlen, hdead]
  refine ⟨by simp, by simp, ?_⟩
  simp [MAX_API_CALLS_PER_MINUTE]

/-- C7 witness: fifteen calls at time 0, checked at time 0 and again
at time 60. -/
theorem rate_limit_window_scenario_witness :
    ((check_api_rate_limit
        ((List.replicate 15 (0 : Int)).foldl record_api_call [])
        0).2.minute_exceeded = true)
    ∧ ((check_api_rate_limit
        ((List.replicate 15 (0 : Int)).foldl record_api_call [])
        0).2.can_make_call = false)
    ∧ ((check_api_rate_limit
          (check_api_rate_limit
            ((List.replicate 15 (0 : Int)).foldl record_api_call []) 0).1
          60).2.minute_exceeded = false) :=
  rate_limit_window_scenario (List.replicate 15 (0 : Int)) 0 60
    (by decide) (by decide) (by decide)

/-- C9: when the governor reports that the call cannot proceed, the
write path returns failure, leaves the sheet unchanged, and records no
new API-call timestamp (the state is only the pruned timestamp list,
every element of which was already present). -/
theorem save_refused_when_limited (times : List Int) (now : Int)
    (sheet : List WinRecord) (name : String) (d : Nat)
    (h : (check_api_rate_limit times now).2.can_make_call = false) :
    ((save_winner_to_sheets times now sheet name d).1 = false)
    ∧ ((save_winner_to_sheets times now sheet name d).2.2 = sheet)
    ∧ ((save_winner_to_sheets times now sheet name d).2.1
        = (check_api_rate_limit times now).1)
    ∧ (∀ t ∈ (save_winner_to_sheets times now sheet name d).2.1,
        t ∈ times) := by
  have hor : (check_api_rate_limit times now).2.minute_exceeded = true ∨
      (check_api_rate_limit times now).2.hour_exceeded = true := by
    rw [check_api_rate_limit_def] at h ⊢
    simp only [Bool.not_eq_false'] at h
    simpa [Bool.or_eq_true] using h
  have hsub : ∀ t ∈ (check_api_rate_limit times now).1, t ∈ times := by
    intro t ht
    rw [check_api_rate_limit_def] at ht
    exact (List.mem_filter.mp ht).1
  rcases hor with hm | hh
  · have : save_winner_to_sheets times now sheet name d =
        (false, (check_api_rate_limit times now).1, sheet) := by
      unfold save_winner_to_sheets
      rw [if_pos]
      simp [h, hm]
    rw [this]
    exact ⟨rfl, rfl, rfl, hsub⟩
  · by_cases hm : (check_api_rate_limit times now).2.minute_exceeded = true
    · have : save_winner_to_sheets times now sheet name d =
          (false, (check_api_rate_limit times now).1, sheet) := by
        unfold save_winner_to_sheets
        rw [if_pos]
        simp [h, hm]
      rw [this]
      exact ⟨rfl, rfl, rfl, hsub⟩
    · have : save_winner_to_sheets times now sheet name d =
          (false, (check_api_rate_limit times now).1, sheet) := by
        unfold save_winner_to_sheets
        rw [if_neg, if_pos]
        · simp [h, hh]
        · simp [h, hm]
      rw [this]
      exact ⟨rfl, rfl, rfl, hsub⟩

/-- C9 witness: fifteen calls at time 0 exhaust the minute ceiling, so
a save at time 0 is refused and changes nothing. -/
theorem save_refused_when_limited_witness :
    ((save_winner_to_sheets (List.replicate 15 (0 : Int)) 0 [] "Sam" 1).1
        = false)
    ∧ ((save_winner_to_sheets (List.replicate 15 (0 : Int)) 0 [] "Sam" 1).2.2
        = [])
    ∧ ((save_winner_to_sheets (List.replicate 15 (0 : Int)) 0 [] "Sam" 1).2.1
        = (check_api_rate_limit (List.replicate 15 (0 : Int)) 0).1)
    ∧ (∀ t ∈ (save_winner_to_sheets (List.replicate 15 (0 : Int)) 0 [] "Sam"
          1).2.1, t ∈ List.replicate 15 (0 : Int)) :=
  save_refused_when_limited (List.replicate 15 (0 : Int)) 0 [] "Sam" 1
    (by decide)

/-! ### Claim theorems: aggregation -/

/-- C8: aggregation of an empty record list, and of a list whose every
record is removed by the sanitation filter, both return the absent
bundle rather than an error. -/
theorem aggregate_empty_inputs :
    calculate_statistics [] = none
    ∧ ∀ data : List WinRecord,
        (∀ r ∈ data, isValidWinner (strip r.winner) = false) →
          calculate_statistics data = none := by
  refine ⟨rfl, ?_⟩
  intro data h
  have hclean : cleanRecords data = [] := by
    refine List.filter_eq_nil_iff.mpr ?_
    intro e he
    obtain ⟨r, hr, hre⟩ := List.mem_map.mp he
    subst hre
    simp [h r hr]
  simp [calculate_statistics, hclean]

/-- C8 witness: the empty list, and a list whose only record has a
whitespace-only winner, both aggregate to the absent bundle. -/
theorem aggregate_empty_inputs_witness :
    calculate_statistics [] = none
    ∧ calculate_statistics [⟨" ", 5⟩] = none :=
  ⟨aggregate_empty_inputs.1, aggregate_empty_inputs.2 [⟨" ", 5⟩] (by decide)⟩

/-- Cleaning distributes over concatenation. -/
theorem cleanRecords_append (xs ys : List WinRecord) :
    cleanRecords (xs ++ ys) = cleanRecords xs ++ cleanRecords ys := by
  simp [cleanRecords]

/-- A record whose stripped winner is invalid cleans to nothing. -/
theorem cleanRecords_invalid_singleton (r : WinRecord)
    (h : isValidWinner (strip r.winner) = false) :
    cleanRecords [r] = [] := by
  simp [cleanRecords, h]

/-- C1: the aggregation strips each winner and drops exactly the
records whose winner strips to the empty string or to the string
rendering of a null/NaN value; appending a whitespace-only-winner
record changes neither the cleaned record list nor any computed
statistic, and every cleaned record descends from a kept input
record. -/
theorem sanitation_drops_invalid (data : List WinRecord) (r : WinRecord)
    (hr : strip r.winner = "") :
    calculate_statistics (data ++ [r]) = calculate_statistics data
    ∧ cleanRecords (data ++ [r]) = cleanRecords data
    ∧ (cleanRecords data).length
        = data.countP (fun r0 => isValidWinner (strip r0.winner))
    ∧ ∀ e ∈ cleanRecords data, isValidWinner e.winner = true
        ∧ ∃ r0 ∈ data, e.winner = strip r0.winner ∧ e.date = r0.date := by
  have hval : isValidWinner (strip r.winner) = false := by rw [hr]; rfl
  have hclean : cleanRecords (data ++ [r]) = cleanRecords data := by
    rw [cleanRecords_append, cleanRecords_invalid_singleton r hval,
      List.append_nil]
  refine ⟨?_, hclean, ?_, ?_⟩
  · by_cases hd : data = []
    · subst hd
      simp only [List.nil_append] at hclean ⊢
      simp [calculate_statistics, hclean, cleanRecords, hval]
    · have hd' : ¬data ++ [r] = [] := by simp
      simp [calculate_statistics, hclean, hd, hd']
  · rw [cleanRecords, ← List.countP_eq_length_filter, List.countP_map]
    rfl
  · intro e he
    obtain ⟨hmap, hvalid⟩ := List.mem_filter.mp he
    obtain ⟨r0, hr0, hre⟩ := List.mem_map.mp hmap
    exact ⟨hvalid, r0, hr0, by rw [← hre], by rw [← hre]⟩

/-- C1 witness: appending a whitespace-only winner to a singleton
list leaves the statistics unchanged. -/
theorem sanitation_drops_invalid_witness :
    calculate_statistics ([⟨"Sam", 1⟩] ++ [⟨" ", 2⟩])
        = calculate_statistics [⟨"Sam", 1⟩]
    ∧ cleanRecords ([⟨"Sam", 1⟩] ++ [⟨" ", 2⟩]) = cleanRecords [⟨"Sam", 1⟩]
    ∧ (cleanRecords [⟨"Sam", 1⟩]).length
        = List.countP (fun r0 : WinRecord => isValidWinner (strip r0.winner))
            [⟨"Sam", 1⟩]
    ∧ ∀ e ∈ cleanRecords [⟨"Sam", 1⟩], isValidWinner e.winner = true
        ∧ ∃ r0 : WinRecord, r0 ∈ [(⟨"Sam", 1⟩ : WinRecord)]
            ∧ e.winner = strip r0.winner ∧ e.date = r0.date :=
  sanitation_drops_invalid [⟨"Sam", 1⟩] ⟨" ", 2⟩ (by decide)

/-- C10: the filter excludes exactly the trimmed winners "", "nan" and
"None"; every other trimmed winner — the literal string "null"
included — is kept and counted, and no record whose winner is "None"
(or "", or "nan") survives into any statistic. -/
theorem sanitation_filter_boundary (data : List WinRecord) (r : WinRecord)
    (hmem : r ∈ data) :
    isValidWinner "null" = true
    ∧ (∀ w : String,
        isValidWinner w = true ↔ (w ≠ "" ∧ w ≠ "nan" ∧ w ≠ "None"))
    ∧ (∀ e ∈ cleanRecords data,
        e.winner ≠ "None" ∧ e.winner ≠ "" ∧ e.winner ≠ "nan")
    ∧ (strip r.winner ≠ "" → strip r.winner ≠ "nan" →
        strip r.winner ≠ "None" →
          ((⟨strip r.winner, r.date⟩ : WinRecord) ∈ cleanRecords data
            ∧ 1 ≤ winCount (cleanRecords data) (strip r.winner))) := by
  have hchar : ∀ w : String,
      isValidWinner w = true ↔ (w ≠ "" ∧ w ≠ "nan" ∧ w ≠ "None") := by
    intro w
    simp [isValidWinner, and_assoc]
  refine ⟨by decide, hchar, ?_, ?_⟩
  · intro e he
    have hvalid := (List.mem_filter.mp he).2
    obtain ⟨h1, h2, h3⟩ := (hchar e.winner).mp hvalid
    exact ⟨h3, h1, h2⟩
  · intro h1 h2 h3
    have hvalid : isValidWinner (strip r.winner) = true :=
      (hchar (strip r.winner)).mpr ⟨h1, h2, h3⟩
    have hkept : (⟨strip r.winner, r.date⟩ : WinRecord) ∈ cleanRecords data :=
      List.mem_filter.mpr
        ⟨List.mem_map_of_mem (fun r0 => { r0 with winner := strip r0.winner })
          hmem, hvalid⟩
    refine ⟨hkept, ?_⟩
    have : strip r.winner ∈ winners (cleanRecords data) :=
      List.mem_map_of_mem (fun e => e.winner) hkept
    exact List.count_pos_iff.mpr this

/-- C10 witness: a record whose winner is literally "null" is kept and
counted. -/
theorem sanitation_filter_boundary_witness :
    isValidWinner "null" = true
    ∧ (∀ w : String,
        isValidWinner w = true ↔ (w ≠ "" ∧ w ≠ "nan" ∧ w ≠ "None"))
    ∧ (∀ e ∈ cleanRecords [(⟨"null", 3⟩ : WinRecord)],
        e.winner ≠ "None" ∧ e.winner ≠ "" ∧ e.winner ≠ "nan")
    ∧ (strip "null" ≠ "" → strip "null" ≠ "nan" → strip "null" ≠ "None" →
        ((⟨strip "null", 3⟩ : WinRecord)
            ∈ cleanRecords [(⟨"null", 3⟩ : WinRecord)]
          ∧ 1 ≤ winCount (cleanRecords [(⟨"null", 3⟩ : WinRecord)])
              (strip "null"))) :=
  sanitation_filter_boundary [⟨"null", 3⟩] ⟨"null", 3⟩ (by decide)

/-- Sorting by date permutes the records. -/
theorem sortByDate_perm (rs : List WinRecord) : (sortByDate rs).Perm rs :=
  List.perm_insertionSort dateLE rs

/-- The frequency table permutes the per-distinct-winner pair list. -/
theorem win_counts_list_perm (rs : List WinRecord) :
    (win_counts_list rs).Perm
      ((winners rs).dedup.map (fun w => (w, (winners rs).count w))) :=
  List.perm_insertionSort countGE _

/-- Rows of the frequency table are exactly the distinct winners
paired with their counts. -/
theorem mem_win_counts_list {rs : List WinRecord} {p : String × Nat} :
    p ∈ win_counts_list rs ↔
      p.1 ∈ (winners rs).dedup ∧ p.2 = (winners rs).count p.1 := by
  rw [(win_counts_list_perm rs).mem_iff, List.mem_map]
  constructor
  · rintro ⟨w, hw, rfl⟩
    exact ⟨hw, rfl⟩
  · rintro ⟨h1, h2⟩
    exact ⟨p.1, h1, by rw [← h2]⟩

/-- Association lookup returns the stored value when every pair
carrying the key stores the same value. -/
theorem lookup_pairs (ps : List (String × Nat)) (c : String) (n : Nat)
    (hmem : (c, n) ∈ ps) (huniq : ∀ p ∈ ps, p.1 = c → p.2 = n) :
    ps.lookup c = some n := by
  induction ps with
  | nil => cases hmem
  | cons p ps ih =>
    obtain ⟨k, v⟩ := p
    by_cases hc : c = k
    · have hv : v = n := huniq (k, v) (List.mem_cons_self _ _) hc.symm
      simp [List.lookup, hc, hv]
    · have hbeq : (c == k) = false := by simp [hc]
      rcases List.mem_cons.mp hmem with heq | hmem'
      · cases heq
        exact absurd rfl hc
      · simp only [List.lookup, hbeq]
        exact ih hmem' (fun q hq => huniq q (List.mem_cons_of_mem _ hq))

/-- Looking up any occurring winner in the frequency table yields its
count, and the corresponding row is present. -/
theorem lookup_win_counts (rs : List WinRecord) (c : String)
    (hc : c ∈ winners rs) :
    (win_counts_list rs).lookup c = some ((winners rs).count c)
    ∧ (c, (winners rs).count c) ∈ win_counts_list rs := by
  have hd : c ∈ (winners rs).dedup := List.mem_dedup.mpr hc
  have hmem : (c, (winners rs).count c) ∈ win_counts_list rs :=
    mem_win_counts_list.mpr ⟨hd, rfl⟩
  refine ⟨lookup_pairs _ _ _ hmem ?_, hmem⟩
  intro p hp h1
  obtain ⟨_, h2⟩ := mem_win_counts_list.mp hp
  rw [h2, h1]

/-- Inversion of `calculate_statistics`: a bundle is produced exactly
from a non-empty cleaned record list. -/
theorem calculate_statistics_inv {data : List WinRecord}
    {stats : StatsBundle} (h : calculate_statistics data = some stats) :
    cleanRecords data ≠ [] ∧ stats = mkBundle (cleanRecords data) := by
  by_cases h1 : data = []
  · rw [h1] at h
    simp [calculate_statistics] at h
  · by_cases h2 : cleanRecords data = []
    · simp [calculate_statistics, h1, h2] at h
    · refine ⟨h2, ?_⟩
      simp only [calculate_statistics, h1, if_false, h2] at h
      exact (Option.some_inj.mp h).symm

/-- Every element of a list of naturals is bounded by its max-fold. -/
theorem foldr_max_le (l : List Nat) : ∀ x ∈ l, x ≤ l.foldr max 0 := by
  induction l with
  | nil => simp
  | cons a l ih =>
    intro x hx
    rcases List.mem_cons.mp hx with rfl | hx'
    · exact Nat.le_max_left _ _
    · exact Nat.le_trans (ih x hx') (Nat.le_max_right _ _)

/-- The max-fold of a non-empty list of naturals is attained. -/
theorem foldr_max_mem (l : List Nat) (h : l ≠ []) : l.foldr max 0 ∈ l := by
  induction l with
  | nil => exact absurd rfl h
  | cons a l ih =>
    cases l with
    | nil => simp
    | cons b l' =>
      rw [List.foldr_cons]
      rcases Nat.le_total (List.foldr max 0 (b :: l')) a with hle | hle
      · rw [Nat.max_eq_left hle]
        exact List.mem_cons_self _ _
      · rw [Nat.max_eq_right hle]
        exact List.mem_cons_of_mem _ (ih (by simp))

/-- Applied to a non-empty list, `current_champion` names the winner
of a record whose date bounds the date of every record. -/
theorem current_champion_spec (df : List WinRecord) (hne : df ≠ []) :
    ∃ r ∈ df, current_champion df = some r.winner
      ∧ ∀ r' ∈ df, r'.date ≤ r.date := by
  have hperm := sortByDate_perm df
  have hdne : df.map (fun r => r.date) ≠ [] := by
    simpa [List.map_eq_nil_iff] using hne
  have hmax := foldr_max_mem (df.map (fun r => r.date)) hdne
  obtain ⟨r0, hr0, hr0d⟩ := List.mem_map.mp hmax
  have hr0s : r0 ∈ sortByDate df := hperm.mem_iff.mpr hr0
  have hfind : ((sortByDate df).find?
      (fun r => r.date == maxDate df)).isSome := by
    refine List.find?_isSome.mpr ⟨r0, hr0s, ?_⟩
    simp [maxDate, hr0d]
  obtain ⟨r, hr⟩ := Option.isSome_iff_exists.mp hfind
  have hrmem : r ∈ df := hperm.mem_iff.mp (List.mem_of_find?_eq_some hr)
  have hrd : r.date = maxDate df := by
    have := List.find?_some hr
    simpa using this
  refine ⟨r, hrmem, ?_, ?_⟩
  · unfold current_champion
    rw [hr]
    rfl
  · intro r' hr'
    rw [hrd]
    exact foldr_max_le _ _ (List.mem_map_of_mem (fun r => r.date) hr')

/-- C3: in the statistics bundle, the win counts sum to `total_races` and
have one row per distinct winner; `total_races` is the number of
cleaned records and `unique_winners` the number of distinct cleaned
winner strings. -/
theorem stats_bundle_invariants (data : List WinRecord)
    (stats : StatsBundle) (h : calculate_statistics data = some stats) :
    ((stats.win_counts.map (fun p => p.2)).sum = stats.total_races)
    ∧ (stats.win_counts.length = stats.unique_winners)
    ∧ (stats.total_races = (cleanRecords data).length)
    ∧ (stats.unique_winners = (winners (cleanRecords data)).dedup.length) := by
  obtain ⟨hne, rfl⟩ := calculate_statistics_inv h
  have hperm : (sortByDate (cleanRecords data)).Perm (cleanRecords data) :=
    sortByDate_perm (cleanRecords data)
  have hwperm : (winners (sortByDate (cleanRecords data))).Perm
      (winners (cleanRecords data)) := by
    simpa [winners] using hperm.map (fun r : WinRecord => r.winner)
  simp only [mkBundle]
  refine ⟨?_, ?_, hperm.length_eq, (hwperm.dedup).length_eq⟩
  · have hp := (win_counts_list_perm
      (sortByDate (cleanRecords data))).map (fun p => p.2)
    rw [hp.sum_eq, List.map_map]
    have hsum := List.sum_map_count_dedup_eq_length
      (winners (sortByDate (cleanRecords data)))
    calc ((winners (sortByDate (cleanRecords data))).dedup.map
          ((fun p : String × Nat => p.2) ∘ (fun w =>
            (w, (winners (sortByDate (cleanRecords data))).count w)))).sum
        = ((winners (sortByDate (cleanRecords data))).dedup.map
            (fun w => (winners (sortByDate (cleanRecords data))).count w)).sum
          := rfl
      _ = (winners (sortByDate (cleanRecords data))).length := hsum
      _ = (sortByDate (cleanRecords data)).length := by
            simp [winners]
  · rw [(win_counts_list_perm (sortByDate (cleanRecords data))).length_eq,
      List.length_map]

/-- C3 witness: the worked example from the spec. -/
theorem stats_bundle_invariants_witness :
    (((mkBundle (cleanRecords [⟨"Sam", 1⟩, ⟨"Sam", 8⟩,
          ⟨"Ana", 15⟩])).win_counts.map (fun p => p.2)).sum
        = (mkBundle (cleanRecords [⟨"Sam", 1⟩, ⟨"Sam", 8⟩,
            ⟨"Ana", 15⟩])).total_races)
    ∧ ((mkBundle (cleanRecords [⟨"Sam", 1⟩, ⟨"Sam", 8⟩,
          ⟨"Ana", 15⟩])).win_counts.length
        = (mkBundle (cleanRecords [⟨"Sam", 1⟩, ⟨"Sam", 8⟩,
            ⟨"Ana", 15⟩])).unique_winners)
    ∧ ((mkBundle (cleanRecords [⟨"Sam", 1⟩, ⟨"Sam", 8⟩,
          ⟨"Ana", 15⟩])).total_races
        = (cleanRecords [⟨"Sam", 1⟩, ⟨"Sam", 8⟩, ⟨"Ana", 15⟩]).length)
    ∧ ((mkBundle (cleanRecords [⟨"Sam", 1⟩, ⟨"Sam", 8⟩,
          ⟨"Ana", 15⟩])).unique_winners
        = (winners (cleanRecords [⟨"Sam", 1⟩, ⟨"Sam", 8⟩,
            ⟨"Ana", 15⟩])).dedup.length) :=
  stats_bundle_invariants [⟨"Sam", 1⟩, ⟨"Sam", 8⟩, ⟨"Ana", 15⟩]
    (mkBundle (cleanRecords [⟨"Sam", 1⟩, ⟨"Sam", 8⟩, ⟨"Ana", 15⟩]))
    (by decide)

/-- C4: the field `current_champion` of the bundle is the winner of
a maximum-date valid record, and `champion_total_wins` is the count
of that winner, which is the count stored for it in `win_counts`. -/
theorem current_champion_correct (data : List WinRecord)
    (stats : StatsBundle) (h : calculate_statistics data = some stats) :
    ∃ r ∈ cleanRecords data,
      stats.current_champion = r.winner
      ∧ (∀ r' ∈ cleanRecords data, r'.date ≤ r.date)
      ∧ stats.champion_total_wins = winCount (cleanRecords data) r.winner
      ∧ (r.winner, stats.champion_total_wins) ∈ stats.win_counts := by
  obtain ⟨hne, rfl⟩ := calculate_statistics_inv h
  have hperm : (sortByDate (cleanRecords data)).Perm (cleanRecords data) :=
    sortByDate_perm (cleanRecords data)
  have hne' : sortByDate (cleanRecords data) ≠ [] := by
    intro h0
    apply hne
    have := hperm.length_eq
    rw [h0] at this
    exact List.length_eq_zero.mp this.symm
  obtain ⟨r, hrmem, hch, hmax⟩ :=
    current_champion_spec (sortByDate (cleanRecords data)) hne'
  have hwr : r.winner ∈ winners (sortByDate (cleanRecords data)) :=
    List.mem_map_of_mem (fun r => r.winner) hrmem
  obtain ⟨hlz, hpair⟩ :=
    lookup_win_counts (sortByDate (cleanRecords data)) r.winner hwr
  have hcount : (winners (sortByDate (cleanRecords data))).count r.winner
      = winCount (cleanRecords data) r.winner := by
    have : (winners (sortByDate (cleanRecords data))).Perm
        (winners (cleanRecords data)) := by
      simpa [winners] using hperm.map (fun r : WinRecord => r.winner)
    exact this.count_eq r.winner
  have hctw : champion_total_wins (sortByDate (cleanRecords data))
      = winCount (cleanRecords data) r.winner := by
    unfold champion_total_wins
    rw [hch]
    show ((win_counts_list (sortByDate (cleanRecords data))).lookup
        r.winner).getD 0 = winCount (cleanRecords data) r.winner
    rw [hlz]
    simpa using hcount
  refine ⟨r, hperm.mem_iff.mp hrmem, ?_, ?_, ?_, ?_⟩
  · simp only [mkBundle]
    rw [hch]
    rfl
  · intro r' hr'
    exact hmax r' (hperm.mem_iff.mpr hr')
  · simp only [mkBundle]
    exact hctw
  · simp only [mkBundle]
    rw [hctw, ← hcount]
    exact hpair

/-- C4 witness: the worked example from the spec, whose champion is
Ana with one win. -/
theorem current_champion_correct_witness :
    ∃ r ∈ cleanRecords [(⟨"Sam", 1⟩ : WinRecord), ⟨"Sam", 8⟩, ⟨"Ana", 15⟩],
      (mkBundle (cleanRecords [⟨"Sam", 1⟩, ⟨"Sam", 8⟩,
          ⟨"Ana", 15⟩])).current_champion = r.winner
      ∧ (∀ r' ∈ cleanRecords [(⟨"Sam", 1⟩ : WinRecord), ⟨"Sam", 8⟩,
            ⟨"Ana", 15⟩], r'.date ≤ r.date)
      ∧ (mkBundle (cleanRecords [⟨"Sam", 1⟩, ⟨"Sam", 8⟩,
            ⟨"Ana", 15⟩])).champion_total_wins
          = winCount (cleanRecords [⟨"Sam", 1⟩, ⟨"Sam", 8⟩, ⟨"Ana", 15⟩])
              r.winner
      ∧ (r.winner, (mkBundle (cleanRecords [⟨"Sam", 1⟩, ⟨"Sam", 8⟩,
            ⟨"Ana", 15⟩])).champion_total_wins)
          ∈ (mkBundle (cleanRecords [⟨"Sam", 1⟩, ⟨"Sam", 8⟩,
              ⟨"Ana", 15⟩])).win_counts :=
  current_champion_correct [⟨"Sam", 1⟩, ⟨"Sam", 8⟩, ⟨"Ana", 15⟩]
    (mkBundle (cleanRecords [⟨"Sam", 1⟩, ⟨"Sam", 8⟩, ⟨"Ana", 15⟩]))
    (by decide)

/-- The cumulative pass emits one entry per record, carrying exactly
the date and winner of that record, in order. -/
theorem cumulAux_map_snapshot (rs : List WinRecord) :
    ∀ tally : String → Nat,
      (cumulAux rs tally).map (fun e => (e.date, e.winner))
        = rs.map (fun r => (r.date, r.winner)) := by
  induction rs with
  | nil => intro tally; rfl
  | cons r rs ih =>
    intro tally
    simp only [cumulAux, List.map_cons]
    rw [ih]

/-- Restricted to one winner, the cumulative pass emits the
consecutive integers starting just above the incoming tally of that
winner. -/
theorem cumulAux_filter_map (rs : List WinRecord) (w : String) :
    ∀ tally : String → Nat,
      ((cumulAux rs tally).filter (fun e => e.winner == w)).map
          (fun e => e.cumulative_wins)
        = List.range' (tally w + 1)
            (rs.countP (fun r => r.winner == w)) := by
  induction rs with
  | nil => intro tally; rfl
  | cons r rs ih =>
    intro tally
    by_cases hw : r.winner = w
    · subst hw
      simp only [cumulAux, List.filter_cons, beq_self_eq_true, if_true,
        List.map_cons, List.countP_cons]
      rw [ih, if_pos rfl, List.range'_succ]
    · have hbeq : (r.winner == w) = false := by simp [hw]
      simp only [cumulAux, List.filter_cons, hbeq, Bool.false_eq_true,
        if_false, List.countP_cons]
      rw [ih, if_neg (fun hh => hw hh.symm)]
      simp [hbeq]

/-- The natural-number ranges emitted above increase by exactly one at
each step. -/
theorem chain'_succ_range' : ∀ (n s : Nat),
    List.Chain' (fun a b => b = a + 1) (List.range' s n)
  | 0, _ => List.chain'_nil
  | 1, s => by simp [List.range']
  | (n + 2), s => by
    rw [List.range'_succ, List.range'_succ, List.chain'_cons]
    refine ⟨rfl, ?_⟩
    rw [← List.range'_succ]
    exact chain'_succ_range' (n + 1) (s + 1)

/-- C2: the cumulative series walks the valid records in ascending
date order emitting one entry per record; restricted to any occurring
winner, the emitted counts are 1, 2, 3, …, so they increase by exactly
one, are monotonically non-decreasing, and end at the total of that
winner, which is its row in `win_counts`. -/
theorem cumulative_series_correct (data : List WinRecord)
    (stats : StatsBundle) (w : String)
    (h : calculate_statistics data = some stats)
    (hw : w ∈ winners (cleanRecords data)) :
    (stats.cumulative.map (fun e => (e.date, e.winner))
        = (sortByDate (cleanRecords data)).map (fun r => (r.date, r.winner)))
    ∧ List.Sorted (· ≤ ·)
        ((sortByDate (cleanRecords data)).map (fun r => r.date))
    ∧ ((stats.cumulative.filter (fun e => e.winner == w)).map
          (fun e => e.cumulative_wins)
        = List.range' 1 (winCount (cleanRecords data) w))
    ∧ List.Chain' (fun a b => b = a + 1)
        ((stats.cumulative.filter (fun e => e.winner == w)).map
          (fun e => e.cumulative_wins))
    ∧ List.Chain' (fun a b => a ≤ b)
        ((stats.cumulative.filter (fun e => e.winner == w)).map
          (fun e => e.cumulative_wins))
    ∧ (((stats.cumulative.filter (fun e => e.winner == w)).map
          (fun e => e.cumulative_wins)).getLast?
        = some (winCount (cleanRecords data) w))
    ∧ ((w, winCount (cleanRecords data) w) ∈ stats.win_counts) := by
  obtain ⟨hne, rfl⟩ := calculate_statistics_inv h
  have hperm : (sortByDate (cleanRecords data)).Perm (cleanRecords data) :=
    sortByDate_perm (cleanRecords data)
  have hwperm : (winners (sortByDate (cleanRecords data))).Perm
      (winners (cleanRecords data)) := by
    simpa [winners] using hperm.map (fun r : WinRecord => r.winner)
  have hsorted : List.Sorted dateLE (sortByDate (cleanRecords data)) :=
    List.sorted_insertionSort dateLE (cleanRecords data)
  have hidem : sortByDate (sortByDate (cleanRecords data))
      = sortByDate (cleanRecords data) := hsorted.insertionSort_eq
  have hcum : (mkBundle (cleanRecords data)).cumulative
      = cumulAux (sortByDate (cleanRecords data)) (fun _ => 0) := by
    simp only [mkBundle, cumulative_series, hidem]
  have hcountw : (sortByDate (cleanRecords data)).countP
      (fun r => r.winner == w) = winCount (cleanRecords data) w := by
    have h2 : winCount (cleanRecords data) w
        = (winners (sortByDate (cleanRecords data))).count w :=
      (hwperm.count_eq w).symm
    rw [h2, List.count_eq_countP]
    simp only [winners]
    rw [List.countP_map]
    rfl
  have hfm := cumulAux_filter_map (sortByDate (cleanRecords data)) w
    (fun _ => 0)
  rw [hcountw] at hfm
  have hwpos : 0 < winCount (cleanRecords data) w :=
    List.count_pos_iff.mpr hw
  have hws : w ∈ winners (sortByDate (cleanRecords data)) :=
    hwperm.mem_iff.mpr hw
  obtain ⟨_, hpair⟩ :=
    lookup_win_counts (sortByDate (cleanRecords data)) w hws
  refine ⟨?_, ?_, ?_, ?_, ?_, ?_, ?_⟩
  · rw [hcum]
    exact cumulAux_map_snapshot (sortByDate (cleanRecords data)) _
  · rw [List.Sorted, List.pairwise_map]
    exact hsorted
  · rw [hcum]
    exact hfm
  · rw [hcum, hfm]
    exact chain'_succ_range' _ 1
  · rw [hcum, hfm]
    exact (chain'_succ_range' _ 1).imp
      (fun a b hab => hab ▸ Nat.le_succ a)
  · rw [hcum, hfm, List.getLast?_range']
    rw [if_neg (Nat.pos_iff_ne_zero.mp hwpos)]
    congr 1
    omega
  · have : (w, (winners (sortByDate (cleanRecords data))).count w)
        ∈ win_counts_list (sortByDate (cleanRecords data)) := hpair
    rw [hwperm.count_eq w] at this
    simpa [mkBundle] using this

/-- C2 witness: the worked example from the spec with winner Sam,
whose cumulative counts are 1, 2. -/
theorem cumulative_series_correct_witness :
    ((mkBundle (cleanRecords [⟨"Sam", 1⟩, ⟨"Sam", 8⟩,
          ⟨"Ana", 15⟩])).cumulative.map (fun e => (e.date, e.winner))
        = (sortByDate (cleanRecords [⟨"Sam", 1⟩, ⟨"Sam", 8⟩,
            ⟨"Ana", 15⟩])).map (fun r => (r.date, r.winner)))
    ∧ List.Sorted (· ≤ ·)
        ((sortByDate (cleanRecords [⟨"Sam", 1⟩, ⟨"Sam", 8⟩,
            ⟨"Ana", 15⟩])).map (fun r => r.date))
    ∧ (((mkBundle (cleanRecords [⟨"Sam", 1⟩, ⟨"Sam", 8⟩,
            ⟨"Ana", 15⟩])).cumulative.filter
          (fun e => e.winner == "Sam")).map (fun e => e.cumulative_wins)
        = List.range' 1 (winCount (cleanRecords [⟨"Sam", 1⟩, ⟨"Sam", 8⟩,
            ⟨"Ana", 15⟩]) "Sam"))
    ∧ List.Chain' (fun a b => b = a + 1)
        (((mkBundle (cleanRecords [⟨"Sam", 1⟩, ⟨"Sam", 8⟩,
            ⟨"Ana", 15⟩])).cumulative.filter
          (fun e => e.winner == "Sam")).map (fun e => e.cumulative_wins))
    ∧ List.Chain' (fun a b => a ≤ b)
        (((mkBundle (cleanRecords [⟨"Sam", 1⟩, ⟨"Sam", 8⟩,
            ⟨"Ana", 15⟩])).cumulative.filter
          (fun e => e.winner == "Sam")).map (fun e => e.cumulative_wins))
    ∧ ((((mkBundle (cleanRecords [⟨"Sam", 1⟩, ⟨"Sam", 8⟩,
            ⟨"Ana", 15⟩])).cumulative.filter
          (fun e => e.winner == "Sam")).map
            (fun e => e.cumulative_wins)).getLast?
        = some (winCount (cleanRecords [⟨"Sam", 1⟩, ⟨"Sam", 8⟩,
            ⟨"Ana", 15⟩]) "Sam"))
    ∧ (("Sam", winCount (cleanRecords [⟨"Sam", 1⟩, ⟨"Sam", 8⟩,
          ⟨"Ana", 15⟩]) "Sam")
        ∈ (mkBundle (cleanRecords [⟨"Sam", 1⟩, ⟨"Sam", 8⟩,
            ⟨"Ana", 15⟩])).win_counts) :=
  cumulative_series_correct [⟨"Sam", 1⟩, ⟨"Sam", 8⟩, ⟨"Ana", 15⟩]
    (mkBundle (cleanRecords [⟨"Sam", 1⟩, ⟨"Sam", 8⟩, ⟨"Ana", 15⟩]))
    "Sam" (by decide) (by decide)

/-- Every positive count lies in exactly one of the five source band
predicates, the one its `tier_of` names. -/
theorem tier_of_cases (n : Nat) (hn : 1 ≤ n) :
    ∃ t : Tier, tier_of n = some t
      ∧ ((decide (8 ≤ n) : Bool) = true ↔ t = Tier.diamond)
      ∧ ((decide (6 ≤ n) && decide (n < 8)) = true ↔ t = Tier.platinum)
      ∧ ((decide (4 ≤ n) && decide (n < 6)) = true ↔ t = Tier.gold)
      ∧ ((decide (2 ≤ n) && decide (n < 4)) = true ↔ t = Tier.silver)
      ∧ ((decide (n = 1) : Bool) = true ↔ t = Tier.bronze) := by
  by_cases h8 : 8 ≤ n
  · refine ⟨Tier.diamond, ?_, ?_, ?_, ?_, ?_, ?_⟩ <;>
      simp [tier_of, h8] <;> omega
  · by_cases h6 : 6 ≤ n
    · refine ⟨Tier.platinum, ?_, ?_, ?_, ?_, ?_, ?_⟩ <;>
        simp [tier_of, h8, h6] <;> omega
    · by_cases h4 : 4 ≤ n
      · refine ⟨Tier.gold, ?_, ?_, ?_, ?_, ?_, ?_⟩ <;>
          simp [tier_of, h8, h6, h4] <;> omega
      · by_cases h2 : 2 ≤ n
        · refine ⟨Tier.silver, ?_, ?_, ?_, ?_, ?_, ?_⟩ <;>
            simp [tier_of, h8, h6, h4, h2] <;> omega
        · have h1 : n = 1 := by omega
          refine ⟨Tier.bronze, ?_, ?_, ?_, ?_, ?_, ?_⟩ <;>
            simp [tier_of, h8, h6, h4, h2, h1]

/-- C5: the five Hall-of-Fame bands strictly partition the winners of
`win_counts`: each row has a positive count determined solely by that
winner's total wins, `tier_of` assigns it exactly one tier, and
membership in each band filter coincides with that assignment. -/
theorem tiers_partition (data : List WinRecord) (stats : StatsBundle)
    (p : String × Nat) (h : calculate_statistics data = some stats)
    (hp : p ∈ stats.win_counts) :
    1 ≤ p.2
    ∧ p.2 = winCount (cleanRecords data) p.1
    ∧ ∃ t : Tier, tier_of p.2 = some t
        ∧ (p ∈ diamond_champions stats.win_counts ↔ t = Tier.diamond)
        ∧ (p ∈ platinum_champions stats.win_counts ↔ t = Tier.platinum)
        ∧ (p ∈ gold_champions stats.win_counts ↔ t = Tier.gold)
        ∧ (p ∈ silver_champions stats.win_counts ↔ t = Tier.silver)
        ∧ (p ∈ bronze_champions stats.win_counts ↔ t = Tier.bronze) := by
  obtain ⟨hne, rfl⟩ := calculate_statistics_inv h
  have hperm : (sortByDate (cleanRecords data)).Perm (cleanRecords data) :=
    sortByDate_perm (cleanRecords data)
  have hwperm : (winners (sortByDate (cleanRecords data))).Perm
      (winners (cleanRecords data)) := by
    simpa [winners] using hperm.map (fun r : WinRecord => r.winner)
  have hp' : p ∈ win_counts_list (sortByDate (cleanRecords data)) := by
    simpa [mkBundle] using hp
  obtain ⟨hdd, hcnt⟩ := mem_win_counts_list.mp hp'
  have hpos : 1 ≤ p.2 := by
    rw [hcnt]
    exact List.count_pos_iff.mpr (List.mem_dedup.mp hdd)
  have hwc : p.2 = winCount (cleanRecords data) p.1 := by
    rw [hcnt]
    exact hwperm.count_eq p.1
  obtain ⟨t, ht, hd, hpl, hg, hs, hb⟩ := tier_of_cases p.2 hpos
  refine ⟨hpos, hwc, t, ht, ?_, ?_, ?_, ?_, ?_⟩
  · rw [← hd]
    simp only [mkBundle] at hp ⊢
    simp [diamond_champions, List.mem_filter, hp']
  · rw [← hpl]
    simp only [mkBundle] at hp ⊢
    simp [platinum_champions, List.mem_filter, hp']
  · rw [← hg]
    simp only [mkBundle] at hp ⊢
    simp [gold_champions, List.mem_filter, hp']
  · rw [← hs]
    simp only [mkBundle] at hp ⊢
    simp [silver_champions, List.mem_filter, hp']
  · rw [← hb]
    simp only [mkBundle] at hp ⊢
    simp [bronze_champions, List.mem_filter, hp']

/-- C5 witness: the row ("Sam", 2) of the worked example sits in the
silver band and no other. -/
theorem tiers_partition_witness :
    1 ≤ (("Sam", 2) : String × Nat).2
    ∧ (("Sam", 2) : String × Nat).2
        = winCount (cleanRecords [⟨"Sam", 1⟩, ⟨"Sam", 8⟩, ⟨"Ana", 15⟩])
            (("Sam", 2) : String × Nat).1
    ∧ ∃ t : Tier, tier_of (("Sam", 2) : String × Nat).2 = some t
        ∧ ((("Sam", 2) : String × Nat) ∈ diamond_champions
            (mkBundle (cleanRecords [⟨"Sam", 1⟩, ⟨"Sam", 8⟩,
              ⟨"Ana", 15⟩])).win_counts ↔ t = Tier.diamond)
        ∧ ((("Sam", 2) : String × Nat) ∈ platinum_champions
            (mkBundle (cleanRecords [⟨"Sam", 1⟩, ⟨"Sam", 8⟩,
              ⟨"Ana", 15⟩])).win_counts ↔ t = Tier.platinum)
        ∧ ((("Sam", 2) : String × Nat) ∈ gold_champions
            (mkBundle (cleanRecords [⟨"Sam", 1⟩, ⟨"Sam", 8⟩,
              ⟨"Ana", 15⟩])).win_counts ↔ t = Tier.gold)
        ∧ ((("Sam", 2) : String × Nat) ∈ silver_champions
            (mkBundle (cleanRecords [⟨"Sam", 1⟩, ⟨"Sam", 8⟩,
              ⟨"Ana", 15⟩])).win_counts ↔ t = Tier.silver)
        ∧ ((("Sam", 2) : String × Nat) ∈ bronze_champions
            (mkBundle (cleanRecords [⟨"Sam", 1⟩, ⟨"Sam", 8⟩,
              ⟨"Ana", 15⟩])).win_counts ↔ t = Tier.bronze) :=
  tiers_partition [⟨"Sam", 1⟩, ⟨"Sam", 8⟩, ⟨"Ana", 15⟩]
    (mkBundle (cleanRecords [⟨"Sam", 1⟩, ⟨"Sam", 8⟩, ⟨"Ana", 15⟩]))
    ("Sam", 2) (by decide) (by decide)

end DataDuck
